import Mathlib

/-!
# Verification of `mrjob/spark/runner.py` (SparkMRJobRunner)

Shallow embedding of the step-grouping, harness-argument construction,
submission execution and validation logic of mrjob's Spark runner, together
with proofs of the specified properties.

Python dicts of jobconf variables are modelled as association lists of
strings; Python `None` becomes `Option.none`.
-/

set_option autoImplicit false

namespace SparkRunner

/-- The step types accepted by the Spark runner (`_STEP_TYPES` in
`runner.py`): `streaming` steps are run through the Spark harness
("translated" steps in the spec); the other three are native Spark kinds. -/
inductive StepType where
  | streaming
  | spark
  | spark_jar
  | spark_script
  deriving DecidableEq, Repr

/-- The part of a mapper/combiner/reducer sub-spec that `_check_step`
inspects: whether the sub-dict has a `command` key or a `pre_filter` key. -/
structure SubSpec where
  has_command : Bool
  has_pre_filter : Bool
  deriving DecidableEq, Repr

/-- A job configuration mapping (a Python dict of jobconf variables),
modelled as an association list; Python `==` on dicts is modelled as
structural equality. -/
abbrev Jobconf := List (String × String)

/-- A step description, with the fields of the step dict that the Spark
runner reads: `type`, `jobconf` (absent key modelled as `none`, which is
what `step.get('jobconf')` returns), the `input_manifest` flag and the
mapper/combiner/reducer sub-specs (absent modelled as `none`). -/
structure Step where
  type : StepType
  jobconf : Option Jobconf
  input_manifest : Bool
  mapper : Option SubSpec
  combiner : Option SubSpec
  reducer : Option SubSpec
  deriving DecidableEq, Repr

/-- A step group as built by `_group_steps`: the shared `type` of the
steps, the ordered member steps, and the (0-indexed) ordinal of the first
member. -/
structure StepGroup where
  type : StepType
  steps : List Step
  step_num : Nat
  deriving DecidableEq, Repr

/-- `groups[-1]['steps'][0].get('jobconf')`: the jobconf of a group's
first member, `none` in the (unreachable) case of an empty member list. -/
def firstJobconf (g : StepGroup) : Option (Option Jobconf) :=
  g.steps.head?.map Step.jobconf

/-- The condition of `_group_steps` under which step `s` is appended to the
open group `g` (the `groups` non-emptiness test is the surrounding match):
`step['type'] == 'streaming' and groups[-1]['type'] == 'streaming' and
step.get('jobconf') == groups[-1]['steps'][0].get('jobconf')`. -/
def joinsGroup (g : StepGroup) (s : Step) : Prop :=
  s.type = StepType.streaming ∧ g.type = StepType.streaming ∧
    some s.jobconf = firstJobconf g

instance (g : StepGroup) (s : Step) : Decidable (joinsGroup g s) := by
  unfold joinsGroup; infer_instance

/-- The loop of `_group_steps`, with the accumulated groups kept in
reverse order (the head is `groups[-1]`); `n` is the enumeration index of
the next step. -/
def _group_steps_go : Nat → List StepGroup → List Step → List StepGroup
  | _, revGroups, [] => revGroups
  | n, revGroups, s :: rest =>
    match revGroups with
    | g :: gs =>
      if joinsGroup g s then
        _group_steps_go (n + 1) ({ g with steps := g.steps ++ [s] } :: gs) rest
      else
        _group_steps_go (n + 1) (⟨s.type, [s], n⟩ :: g :: gs) rest
    | [] => _group_steps_go (n + 1) [⟨s.type, [s], n⟩] rest

/-- `_group_steps(steps)`: group consecutive streaming steps with equal
jobconf together; every other step gets a singleton group. -/
def _group_steps (steps : List Step) : List StepGroup :=
  (_group_steps_go 0 [] steps).reverse

/-- The concatenation, in order, of the member lists of a list of groups. -/
def concatSteps (gs : List StepGroup) : List Step :=
  (gs.map StepGroup.steps).flatten

/-- Checks that each group's recorded `step_num` equals the number of steps
contained in all earlier groups, starting from base ordinal `n`. -/
def numberedFrom : Nat → List StepGroup → Bool
  | _, [] => true
  | n, g :: gs => n = g.step_num && numberedFrom (n + g.steps.length) gs

/-- An element of the Python args list built by `_spark_script_args`: the
code appends both strings and ints (the step numbers are appended as
ints). -/
inductive PyArg where
  | str (s : String)
  | int (n : Nat)
  deriving DecidableEq, Repr

/-- `_job_script_module_name()`: `re.sub(r'[^\w\d]', '_', self._job_key)` —
every character of the job key outside `[A-Za-z0-9_]` is replaced by an
underscore. -/
def _job_script_module_name (job_key : String) : String :=
  ⟨job_key.data.map fun c => if c.isAlphanum || c = '_' then c else '_'⟩

/-- Modelled from the spec: `jobconf_from_dict` (from `mrjob.compat`, not
under `src/`) looks a jobconf variable up in the job-configuration mapping,
returning `None` when absent — the spec only speaks of the group's job
configuration "specifying" a variable. Hadoop-version name translation is
not modelled; lookups use the Hadoop-2 names the runner passes. -/
def jobconf_from_dict (jobconf : Jobconf) (name : String) : Option String :=
  (jobconf.find? (fun kv => kv.1 = name)).map Prod.snd

/-- Python truthiness of an optional string: `None` and `''` are falsy. -/
def pyTruthy : Option String → Bool
  | none => false
  | some s => s ≠ ""

/-- The job-wide context `_spark_script_args` reads from the runner:
the job key (for `_job_script_module_name`), the job class name
(`self._mrjob_cls.__name__`), per-step input URIs (`_step_input_uris`)
and output URI (`_step_output_uri`), the total number of steps
(`_num_steps()`), the passthrough args (`_mr_job_extra_args()`) with the
shell-quoting function `cmd_line` applied to them, and the per-step
jobconf (`_jobconf_for_step`). -/
structure ArgsCtx where
  job_key : String
  class_name : String
  step_input_uris : Nat → List String
  step_output_uri : Nat → String
  num_steps : Nat
  mr_job_extra_args : List String
  cmd_line : List String → String
  jobconf_for_step : Nat → Jobconf

/-- `_spark_script_args(step_num, last_step_num)` for a streaming step
(the non-streaming branch delegates to the superclass, which is outside
this module): harness class name, comma-joined input, output of the last
step, the step-range flags when the group does not span the whole job
(faithful to the source, which appends `'--first-step-num', step_num,
'--last_step_num', step_num`), `--job-args` when passthrough args are
non-empty, and `--compression-codec` when the jobconf both enables
map-output compression and names a codec. -/
def _spark_script_args (ctx : ArgsCtx) (step_num : Nat)
    (last_step_num? : Option Nat) : List PyArg :=
  let last_step_num := last_step_num?.getD step_num
  let args₁ : List PyArg :=
    [PyArg.str (_job_script_module_name ctx.job_key ++ "." ++ ctx.class_name),
     PyArg.str (String.intercalate "," (ctx.step_input_uris step_num)),
     PyArg.str (ctx.step_output_uri last_step_num)]
  let args₂ : List PyArg :=
    if ¬(step_num = 0 ∧ last_step_num = ctx.num_steps - 1) then
      [PyArg.str "--first-step-num", PyArg.int step_num,
       PyArg.str "--last_step_num", PyArg.int step_num]
    else []
  let args₃ : List PyArg :=
    if ctx.mr_job_extra_args ≠ [] then
      [PyArg.str "--job-args", PyArg.str (ctx.cmd_line ctx.mr_job_extra_args)]
    else []
  let jobconf := ctx.jobconf_for_step step_num
  let compress_conf := jobconf_from_dict jobconf "mapreduce.map.output.compress"
  let codec_conf := jobconf_from_dict jobconf "mapreduce.map.output.compress.codec"
  let args₄ : List PyArg :=
    if pyTruthy compress_conf && (compress_conf ≠ some "false") &&
        pyTruthy codec_conf then
      [PyArg.str "--compression-codec", PyArg.str (codec_conf.getD "")]
    else []
  args₁ ++ args₂ ++ args₃ ++ args₄

/-- The jobconf enables map-output compression: the variable is present,
truthy, and not the string `'false'` (the code's
`compress_conf and compress_conf != 'false'`). -/
def enablesMapOutputCompression (jobconf : Jobconf) : Prop :=
  let c := jobconf_from_dict jobconf "mapreduce.map.output.compress"
  pyTruthy c = true ∧ c ≠ some "false"

instance (jobconf : Jobconf) : Decidable (enablesMapOutputCompression jobconf) := by
  unfold enablesMapOutputCompression; infer_instance

/-- The jobconf specifies a (truthy) map-output compression codec. -/
def specifiesCodec (jobconf : Jobconf) : Prop :=
  pyTruthy (jobconf_from_dict jobconf "mapreduce.map.output.compress.codec") = true

instance (jobconf : Jobconf) : Decidable (specifiesCodec jobconf) := by
  unfold specifiesCodec; infer_instance

/-- The payload of Python's `StepFailedException` as raised by
`_run_step_on_spark`: the reason string, the group's first and last step
ordinals, and the total number of steps of the job. -/
structure StepFailedException where
  reason : String
  step_num : Nat
  last_step_num : Nat
  num_steps : Nat
  deriving DecidableEq, Repr

/-- `str(CalledProcessError(returncode, cmd))` for a non-zero exit status:
Python's `subprocess.CalledProcessError.__str__` formats it as
`Command '<cmd>' returned non-zero exit status <returncode>.` (the
rendering of the args list itself is abstracted into `cmd`). -/
def calledProcessErrorStr (returncode : Nat) (cmd : String) : String :=
  "Command '" ++ cmd ++ "' returned non-zero exit status " ++
    toString returncode ++ "."

/-- The failure-detection core of `_run_step_on_spark`: after
`_run_spark_submit` returns `returncode`, a zero code is success and a
non-zero code raises `StepFailedException` with reason
`str(CalledProcessError(returncode, spark_submit_args))`, the group's step
range and the job's total step count. `cmd` abstracts the rendered
`spark_submit_args`. -/
def _run_step_on_spark (returncode : Nat) (cmd : String)
    (step_num last_step_num num_steps : Nat) :
    Except StepFailedException Unit :=
  if returncode ≠ 0 then
    Except.error ⟨calledProcessErrorStr returncode cmd,
      step_num, last_step_num, num_steps⟩
  else
    Except.ok ()

/-- The loop of `_run_steps_on_spark` over the groups of `_group_steps`:
group `i`'s submission exits with code `exit_code i` and rendered command
line `cmd i` (the environment determining these is abstracted as
functions of the group index). Returns the list of group indices whose
submission was started, in start order, together with the exception of the
first failure if any; a raised exception aborts the loop. -/
def _run_steps_on_spark_go (exit_code : Nat → Nat) (cmd : Nat → String)
    (num_steps : Nat) : Nat → List StepGroup →
    List Nat × Option StepFailedException
  | _, [] => ([], none)
  | i, g :: gs =>
    let step_num := g.step_num
    let last_step_num := step_num + g.steps.length - 1
    match _run_step_on_spark (exit_code i) (cmd i)
        step_num last_step_num num_steps with
    | Except.ok () =>
      let (started, failure) :=
        _run_steps_on_spark_go exit_code cmd num_steps (i + 1) gs
      (i :: started, failure)
    | Except.error e => ([i], some e)

/-- `_run_steps_on_spark()`: run each group of `_group_steps(steps)` in
order, one `_run_step_on_spark` call per group, stopping at the first
failure. -/
def _run_steps_on_spark (exit_code : Nat → Nat) (cmd : Nat → String)
    (num_steps : Nat) (groups : List StepGroup) :
    List Nat × Option StepFailedException :=
  _run_steps_on_spark_go exit_code cmd num_steps 0 groups

/-- The exceptions `_check_step` can raise: `NotImplementedError` (input
manifests, commands) and `ValueError` (missing `mrjob_cls`). The spec's
taxonomy calls all of these `IncompatibleStep`. -/
inductive CheckError where
  | notImplemented (msg : String)
  | valueError (msg : String)
  deriving DecidableEq, Repr

/-- The `%s` role names `_check_step` iterates over, in order. -/
def mrcRoles : List (String × (Step → Option SubSpec)) :=
  [("mapper", Step.mapper), ("combiner", Step.combiner), ("reducer", Step.reducer)]

/-- `_check_step(step, step_num)` for the Spark runner (the superclass
check, which validates the step type itself, is outside this module):
reject steps with a truthy `input_manifest`; for streaming steps, require
`mrjob_cls` to be set and reject any mapper/combiner/reducer sub-spec
containing a `command` or `pre_filter` key. -/
def _check_step (mrjob_cls_set : Bool) (step : Step) (step_num : Nat) :
    Except CheckError Unit :=
  if step.input_manifest then
    Except.error (CheckError.notImplemented
      "spark runner does not support input manifests")
  else if step.type = StepType.streaming then
    if ¬ mrjob_cls_set then
      Except.error (CheckError.valueError
        "You must set mrjob_cls to run streaming steps")
    else
      mrcRoles.foldr
        (fun (role : String × (Step → Option SubSpec)) acc =>
          match role.2 step with
          | some sub =>
            if sub.has_command || sub.has_pre_filter then
              Except.error (CheckError.notImplemented
                ("step " ++ toString step_num ++ "'s " ++ role.1 ++
                  " runs a command, but spark runner does not support commands"))
            else acc
          | none => acc)
        (Except.ok ())
  else
    Except.ok ()

/-- `_check_step` applied to every step of the job in order, stopping at
the first validation error (each runner step is checked with its ordinal,
as the base class does when the job's steps are loaded). -/
def _check_steps (mrjob_cls_set : Bool) (steps : List Step) :
    Except CheckError Unit :=
  steps.enum.foldr
    (fun (p : Nat × Step) acc =>
      match _check_step mrjob_cls_set p.2 p.1 with
      | Except.ok () => acc
      | Except.error e => Except.error e)
    (Except.ok ())

/-- Modelled from the spec: the job-setup ordering (the base-class
`MRJobRunner` setup that invokes `_check_step`, not under `src/`) —
"Validation errors (`IncompatibleStep`) are raised eagerly during job
setup, never mid-run", "raised at validation time, before any submission
is attempted, so no partial work occurs". Every step is validated first;
only if validation passes are the groups formed and run. Returns the
group indices whose submission was started together with the outcome. -/
def run_job (mrjob_cls_set : Bool) (steps : List Step)
    (exit_code : Nat → Nat) (cmd : Nat → String) :
    List Nat × Except CheckError (Option StepFailedException) :=
  match _check_steps mrjob_cls_set steps with
  | Except.error e => ([], Except.error e)
  | Except.ok () =>
    let (started, failure) :=
      _run_steps_on_spark exit_code cmd steps.length (_group_steps steps)
    (started, Except.ok failure)

/-- The characters preceding the first occurrence of `://`, or `none`
when the path contains no `://`. -/
def uriScheme : List Char → Option (List Char)
  | [] => none
  | ':' :: '/' :: '/' :: _ => some []
  | c :: rest => (uriScheme rest).map (c :: ·)

/-- Modelled from the spec: `is_uri` (from `mrjob.parse`, not under
`src/`) — the spec distinguishes a "remote URI" from a local path; a URI
starts with a scheme (a letter followed by letters, digits, `-`, `+`,
`.`) and `://`. -/
def is_uri (path : String) : Bool :=
  match uriScheme path.data with
  | none => false
  | some [] => false
  | some (c :: rest) =>
    c.isAlpha && rest.all (fun ch => ch.isAlphanum || ch = '-' || ch = '+' || ch = '.')

/-- A storage operation issued against the composite filesystem during
staging. -/
inductive StorageOp where
  | mkdir (uri : String)
  | put (src : String) (uri : String)
  deriving DecidableEq, Repr

/-- The state of the `UploadDirManager` the runner may create:
`stagingDir` models its `prefix` attribute (the job-scoped staging
location `posixpath.join(self._spark_tmp_dir, 'files', '')`), and
`path_to_uri` the recorded local-path → staging-URI map. -/
structure UploadMgr where
  stagingDir : String
  path_to_uri : List (String × String)
  deriving DecidableEq, Repr

/-- The `__init__` decision (lines 88–91): an upload manager is created,
rooted at `<spark_tmp_dir>/files/`, exactly when the Spark temp dir is a
URI; otherwise `self._upload_mgr` stays `None`. -/
def mk_upload_mgr (spark_tmp_dir : String) : Option UploadMgr :=
  if is_uri spark_tmp_dir then
    some ⟨spark_tmp_dir ++ "/files/", []⟩
  else
    none

/-- `_upload_local_files()`: with no upload manager it returns
immediately, issuing no storage operation; otherwise it issues one
`mkdir` of the staging location and then one `put` per recorded
(local path, URI) pair, in recorded order. -/
def _upload_local_files : Option UploadMgr → List StorageOp
  | none => []
  | some mgr =>
    StorageOp.mkdir mgr.stagingDir ::
      mgr.path_to_uri.map (fun su => StorageOp.put su.1 su.2)

/-! Concrete steps and job contexts used to evaluate the definitions on
the spec's example scenarios. -/

/-- A streaming step with job configuration A. -/
def stepCfgA : Step :=
  ⟨StepType.streaming, some [("mapreduce.job.reduces", "1")], false, none, none, none⟩

/-- A native (non-streaming) Spark step. -/
def stepNative : Step :=
  ⟨StepType.spark, none, false, none, none, none⟩

/-- A streaming step with job configuration B. -/
def stepCfgB : Step :=
  ⟨StepType.streaming, some [("mapreduce.job.reduces", "2")], false, none, none, none⟩

/-- A streaming step with no `jobconf` key at all. -/
def noConfStep₁ : Step :=
  ⟨StepType.streaming, none, false, none, none, none⟩

/-- Another streaming step with no `jobconf` key (and a different, but
command-free, mapper sub-spec). -/
def noConfStep₂ : Step :=
  ⟨StepType.streaming, none, false, some ⟨false, false⟩, none, none⟩

/-- A streaming step whose mapper runs a command. -/
def commandStep : Step :=
  ⟨StepType.streaming, none, false, some ⟨true, false⟩, none, none⟩

/-- A step that requests an input manifest. -/
def manifestStep : Step :=
  ⟨StepType.streaming, none, true, none, none, none⟩

/-- A concrete job context: a 3-step job with no passthrough args and no
jobconf. -/
def exCtx : ArgsCtx :=
  ⟨"mr_x.1", "MRX", fun n => ["in" ++ toString n], fun n => "out" ++ toString n,
   3, [], fun _ => "", fun _ => []⟩

/-- A concrete single-step job context whose jobconf enables map-output
compression and names a codec. -/
def exCtxCodec : ArgsCtx :=
  ⟨"mr_c.1", "MRC", fun _ => ["in"], fun _ => "out", 1, [], fun _ => "",
   fun _ => [("mapreduce.map.output.compress", "true"),
             ("mapreduce.map.output.compress.codec",
              "org.apache.hadoop.io.compress.GzipCodec")]⟩

/-- The groups of the example job [cfgA-streaming, native, cfgB-streaming]. -/
def exGroups : List StepGroup := _group_steps [stepCfgA, stepNative, stepCfgB]

/-- An environment in which the second submission exits with code 1 and
the others succeed. -/
def exExit : Nat → Nat := fun i => if i = 1 then 1 else 0

/-- The rendered command line of each submission in the example run. -/
def exCmd : Nat → String := fun i => "spark-submit-" ++ toString i

end SparkRunner

namespace SparkRunner

/-! ### Helper lemmas about `_group_steps` -/

theorem concatSteps_nil : concatSteps [] = [] := rfl

theorem concatSteps_cons (g : StepGroup) (gs : List StepGroup) :
    concatSteps (g :: gs) = g.steps ++ concatSteps gs := by
  simp [concatSteps]

theorem concatSteps_append (a b : List StepGroup) :
    concatSteps (a ++ b) = concatSteps a ++ concatSteps b := by
  simp [concatSteps]

theorem group_steps_go_append (xs ys : List Step) : ∀ (n : Nat) (rg : List StepGroup),
    _group_steps_go n rg (xs ++ ys) =
      _group_steps_go (n + xs.length) (_group_steps_go n rg xs) ys := by
  induction xs with
  | nil => intro n rg; simp [_group_steps_go]
  | cons s xs ih =>
    intro n rg
    have hlen : n + (s :: xs).length = (n + 1) + xs.length := by
      simp [List.length_cons]; omega
    match rg with
    | [] =>
      simp only [List.cons_append, _group_steps_go, List.append_eq]
      rw [ih, hlen]
    | g :: gs =>
      simp only [List.cons_append, _group_steps_go, List.append_eq]
      by_cases h : joinsGroup g s
      · simp only [h, if_true]
        rw [ih, hlen]
      · simp only [h, if_false]
        rw [ih, hlen]

theorem group_steps_go_concat (rest : List Step) : ∀ (n : Nat) (rg : List StepGroup),
    concatSteps (_group_steps_go n rg rest).reverse = concatSteps rg.reverse ++ rest := by
  induction rest with
  | nil => intro n rg; simp [_group_steps_go]
  | cons s rest ih =>
    intro n rg
    match rg with
    | [] =>
      simp only [_group_steps_go]
      rw [ih]
      simp [concatSteps]
    | g :: gs =>
      simp only [_group_steps_go]
      by_cases h : joinsGroup g s
      · simp only [h, if_true]
        rw [ih]
        simp [concatSteps, concatSteps_append]
      · simp only [h, if_false]
        rw [ih]
        simp [concatSteps, concatSteps_append]

theorem numberedFrom_append (xs ys : List StepGroup) : ∀ n : Nat,
    numberedFrom n (xs ++ ys) =
      (numberedFrom n xs && numberedFrom (n + (concatSteps xs).length) ys) := by
  induction xs with
  | nil => intro n; simp [numberedFrom, concatSteps]
  | cons g gs ih =>
    intro n
    have harith : n + g.steps.length + (concatSteps gs).length =
        n + (concatSteps (g :: gs)).length := by
      simp [concatSteps_cons]; omega
    simp only [List.cons_append, numberedFrom, List.append_eq, ih, harith,
      Bool.and_assoc]

theorem group_steps_go_numbered (rest : List Step) : ∀ (n : Nat) (rg : List StepGroup),
    numberedFrom 0 rg.reverse = true →
    (concatSteps rg.reverse).length = n →
    numberedFrom 0 (_group_steps_go n rg rest).reverse = true := by
  induction rest with
  | nil => intro n rg h1 _; simpa [_group_steps_go] using h1
  | cons s rest ih =>
    intro n rg h1 h2
    match rg with
    | [] =>
      have hn : n = 0 := by simpa [concatSteps] using h2.symm
      subst hn
      simp only [_group_steps_go]
      apply ih
      · simp [numberedFrom]
      · simp [concatSteps]
    | g :: gs =>
      simp only [_group_steps_go]
      rw [List.reverse_cons, numberedFrom_append] at h1
      rw [List.reverse_cons, concatSteps_append, List.length_append] at h2
      simp only [Bool.and_eq_true] at h1
      obtain ⟨hgs, hg⟩ := h1
      have hsn : (concatSteps gs.reverse).length = g.step_num := by
        simpa [numberedFrom] using hg
      by_cases h : joinsGroup g s
      · simp only [h, if_true]
        apply ih
        · rw [List.reverse_cons, numberedFrom_append, hgs]
          simp [numberedFrom, hsn]
        · rw [List.reverse_cons, concatSteps_append, List.length_append]
          simp only [concatSteps_cons, concatSteps_nil, List.append_nil,
            List.length_append, List.length_cons, List.length_nil] at h2 ⊢
          omega
      · simp only [h, if_false]
        apply ih
        · rw [List.reverse_cons, List.reverse_cons]
          rw [numberedFrom_append, numberedFrom_append, hgs]
          simp only [concatSteps_cons, concatSteps_nil, List.append_nil,
            List.length_append, List.length_cons, List.length_nil] at h2
          simp only [concatSteps_append, concatSteps_cons, concatSteps_nil,
            List.append_nil, List.length_append, numberedFrom, hsn]
          simp [numberedFrom] at hg
          simp [hg]
          omega
        · rw [List.reverse_cons, List.reverse_cons, concatSteps_append,
            concatSteps_append]
          simp only [concatSteps_cons, concatSteps_nil, List.append_nil,
            List.length_append, List.length_cons, List.length_nil] at h2 ⊢
          omega

theorem group_steps_go_ne_nil (rest : List Step) : ∀ (n : Nat) (rg : List StepGroup),
    rg ≠ [] → _group_steps_go n rg rest ≠ [] := by
  induction rest with
  | nil => intro n rg h; simpa [_group_steps_go] using h
  | cons s rest ih =>
    intro n rg h
    match rg with
    | g :: gs =>
      simp only [_group_steps_go]
      by_cases hj : joinsGroup g s
      · simp only [hj, if_true]; exact ih _ _ (by simp)
      · simp only [hj, if_false]; exact ih _ _ (by simp)

theorem group_steps_ne_nil (steps : List Step) (h : steps ≠ []) :
    _group_steps steps ≠ [] := by
  match steps with
  | s :: rest =>
    unfold _group_steps
    simp only [ne_eq, List.reverse_eq_nil_iff]
    simp only [_group_steps_go]
    exact group_steps_go_ne_nil rest 1 _ (by simp)

theorem group_steps_snoc (steps : List Step) (s : Step) (G : List StepGroup)
    (g : StepGroup) (hsteps : _group_steps steps = G ++ [g]) :
    _group_steps (steps ++ [s]) =
      if joinsGroup g s then G ++ [{ g with steps := g.steps ++ [s] }]
      else G ++ [g, ⟨s.type, [s], steps.length⟩] := by
  have hgo : _group_steps_go 0 [] steps = g :: G.reverse := by
    have h' := congrArg List.reverse hsteps
    simpa [_group_steps] using h'
  unfold _group_steps
  rw [group_steps_go_append steps [s] 0 [], hgo]
  simp only [Nat.zero_add]
  by_cases h : joinsGroup g s
  · simp [_group_steps_go, h]
  · simp [_group_steps_go, h]

end SparkRunner

namespace SparkRunner

/-! ### Claim theorems: step grouping -/

/-- C3: for every input step sequence, `_group_steps` returns a partition
of that sequence — concatenating the groups' member lists in order yields
exactly the original steps (none dropped, duplicated or reordered), and
each group's recorded `step_num` equals the position of its first member
in the original sequence (the number of steps held by all earlier
groups). -/
theorem group_steps_partition (steps : List Step) :
    concatSteps (_group_steps steps) = steps ∧
      numberedFrom 0 (_group_steps steps) = true := by
  constructor
  · simpa [_group_steps, concatSteps] using group_steps_go_concat steps 0 []
  · exact group_steps_go_numbered steps 0 [] (by simp [numberedFrom])
      (by simp [concatSteps])

/-- C4: a step `s` appended to a job extends the currently open (last)
group exactly when the open group's kind is streaming, `s` is streaming,
and `s`'s jobconf is structurally equal to the group's first member's
(`joinsGroup`); otherwise it starts a new singleton group at ordinal
`steps.length`. Moreover the spec's example
`[translated(cfg=A), translated(cfg=A), native, translated(cfg=B)]`
groups into `[{0,1}, {2}, {3}]`. -/
theorem group_steps_append_rule_and_example :
    (∀ (steps : List Step) (s : Step) (G : List StepGroup) (g : StepGroup),
        _group_steps steps = G ++ [g] →
        _group_steps (steps ++ [s]) =
          if joinsGroup g s then G ++ [{ g with steps := g.steps ++ [s] }]
          else G ++ [g, ⟨s.type, [s], steps.length⟩]) ∧
      _group_steps [stepCfgA, stepCfgA, stepNative, stepCfgB] =
        [⟨StepType.streaming, [stepCfgA, stepCfgA], 0⟩,
         ⟨StepType.spark, [stepNative], 2⟩,
         ⟨StepType.streaming, [stepCfgB], 3⟩] :=
  ⟨group_steps_snoc, by decide⟩

/-- Witness for C4: appending a streaming step with a different jobconf to
a single-group job takes the non-joining branch and opens a new singleton
group. -/
theorem group_steps_append_rule_and_example_witness :
    _group_steps ([stepCfgA] ++ [stepCfgB]) =
      if joinsGroup ⟨StepType.streaming, [stepCfgA], 0⟩ stepCfgB then
        [] ++ [{ (⟨StepType.streaming, [stepCfgA], 0⟩ : StepGroup) with
          steps := [stepCfgA] ++ [stepCfgB] }]
      else [] ++ [⟨StepType.streaming, [stepCfgA], 0⟩,
        ⟨stepCfgB.type, [stepCfgB], [stepCfgA].length⟩] :=
  group_steps_append_rule_and_example.1 [stepCfgA] stepCfgB []
    ⟨StepType.streaming, [stepCfgA], 0⟩ (by decide)

/-- C10: two adjacent streaming steps neither of which has a `jobconf` key
(`step.get('jobconf')` is `None` for both) always merge: alone they form a
single group, and after an arbitrary prefix of steps they still land
together in the final group. -/
theorem adjacent_streaming_without_jobconf_merge :
    (∀ (s₁ s₂ : Step), s₁.type = StepType.streaming →
        s₂.type = StepType.streaming →
        s₁.jobconf = none → s₂.jobconf = none →
        _group_steps [s₁, s₂] = [⟨StepType.streaming, [s₁, s₂], 0⟩]) ∧
      (∀ (pre : List Step) (s₁ s₂ : Step),
        s₁.type = StepType.streaming → s₂.type = StepType.streaming →
        s₁.jobconf = none → s₂.jobconf = none →
        ∃ (G : List StepGroup) (g : StepGroup) (init : List Step),
          _group_steps (pre ++ [s₁, s₂]) = G ++ [g] ∧
            g.steps = init ++ [s₁, s₂]) := by
  have pair : ∀ (s₁ s₂ : Step), s₁.type = StepType.streaming →
      s₂.type = StepType.streaming → s₁.jobconf = none → s₂.jobconf = none →
      _group_steps [s₁, s₂] = [⟨StepType.streaming, [s₁, s₂], 0⟩] := by
    intro s₁ s₂ h1 h2 h3 h4
    simp [_group_steps, _group_steps_go, joinsGroup, firstJobconf, h1, h2, h3, h4]
  refine ⟨pair, ?_⟩
  intro pre s₁ s₂ h1 h2 h3 h4
  match pre with
  | [] =>
    exact ⟨[], ⟨StepType.streaming, [s₁, s₂], 0⟩, [],
      pair s₁ s₂ h1 h2 h3 h4, rfl⟩
  | p :: ps =>
    have hne : _group_steps (p :: ps) ≠ [] := group_steps_ne_nil _ (by simp)
    set L := _group_steps (p :: ps) with hL
    have hdecomp : _group_steps (p :: ps) = L.dropLast ++ [L.getLast hne] :=
      (List.dropLast_append_getLast hne).symm
    set G₀ := L.dropLast
    set g₀ := L.getLast hne
    have hs₁ := group_steps_snoc (p :: ps) s₁ G₀ g₀ hdecomp
    by_cases hj : joinsGroup g₀ s₁
    · rw [if_pos hj] at hs₁
      obtain ⟨hs₁t, hg₀t, hjc⟩ := hj
      rw [h3] at hjc
      match hsteps : g₀.steps with
      | [] => rw [firstJobconf, hsteps] at hjc; simp at hjc
      | st₀ :: tl =>
        have hst₀ : st₀.jobconf = none := by
          rw [firstJobconf, hsteps] at hjc
          simpa using hjc.symm
        have hj₂ : joinsGroup { g₀ with steps := g₀.steps ++ [s₁] } s₂ := by
          refine ⟨h2, hg₀t, ?_⟩
          rw [firstJobconf, hsteps]
          simp [hst₀, h4]
        have hs₂ := group_steps_snoc ((p :: ps) ++ [s₁]) s₂ G₀
          { g₀ with steps := g₀.steps ++ [s₁] } hs₁
        rw [if_pos hj₂] at hs₂
        refine ⟨G₀, ⟨g₀.type, g₀.steps ++ [s₁, s₂], g₀.step_num⟩, g₀.steps,
          ?_, rfl⟩
        have hlist : p :: ps ++ [s₁, s₂] = ((p :: ps) ++ [s₁]) ++ [s₂] := by simp
        rw [hlist, hs₂]
        simp
    · rw [if_neg hj] at hs₁
      have hj₂ : joinsGroup ⟨s₁.type, [s₁], (p :: ps).length⟩ s₂ := by
        refine ⟨h2, h1, ?_⟩
        simp [firstJobconf, h3, h4]
      have hs₁' : _group_steps ((p :: ps) ++ [s₁]) =
          (G₀ ++ [g₀]) ++ [⟨s₁.type, [s₁], (p :: ps).length⟩] := by
        rw [hs₁]; simp
      have hs₂ := group_steps_snoc ((p :: ps) ++ [s₁]) s₂ (G₀ ++ [g₀])
        ⟨s₁.type, [s₁], (p :: ps).length⟩ hs₁'
      rw [if_pos hj₂] at hs₂
      refine ⟨G₀ ++ [g₀], ⟨s₁.type, [s₁, s₂], (p :: ps).length⟩, [], ?_, rfl⟩
      have hlist : p :: ps ++ [s₁, s₂] = ((p :: ps) ++ [s₁]) ++ [s₂] := by simp
      rw [hlist, hs₂]
      simp

/-- Witness for C10: two concrete streaming steps without jobconf merge,
alone and after a prefix whose own group they cannot join. -/
theorem adjacent_streaming_without_jobconf_merge_witness :
    _group_steps [noConfStep₁, noConfStep₂] =
      [⟨StepType.streaming, [noConfStep₁, noConfStep₂], 0⟩] ∧
    ∃ (G : List StepGroup) (g : StepGroup) (init : List Step),
      _group_steps ([stepCfgA] ++ [noConfStep₁, noConfStep₂]) = G ++ [g] ∧
        g.steps = init ++ [noConfStep₁, noConfStep₂] :=
  ⟨adjacent_streaming_without_jobconf_merge.1 noConfStep₁ noConfStep₂
      rfl rfl rfl rfl,
   adjacent_streaming_without_jobconf_merge.2 [stepCfgA] noConfStep₁ noConfStep₂
      rfl rfl rfl rfl⟩

end SparkRunner

namespace SparkRunner

/-! ### Claim theorems: harness argument construction -/

/-- C1 (code bug): for a group that does not span the whole job (first
step 0, last step 1, of a 3-step job), `_spark_script_args` appends
`'--first-step-num', 0` but then `'--last_step_num', 0` — an
underscore-spelled flag carrying the *first* step ordinal. The argument
list never contains the documented `--last-step-num` flag nor the group's
last step ordinal 1; for a group spanning the whole job neither flag is
emitted. -/
theorem spark_script_args_step_range_flags_bug :
    _spark_script_args exCtx 0 (some 1) =
      [PyArg.str "mr_x_1.MRX", PyArg.str "in0", PyArg.str "out1",
       PyArg.str "--first-step-num", PyArg.int 0,
       PyArg.str "--last_step_num", PyArg.int 0] ∧
      PyArg.str "--last-step-num" ∉ _spark_script_args exCtx 0 (some 1) ∧
      PyArg.int 1 ∉ _spark_script_args exCtx 0 (some 1) ∧
      _spark_script_args exCtx 0 (some 2) =
        [PyArg.str "mr_x_1.MRX", PyArg.str "in0", PyArg.str "out2"] := by
  decide

/-- C5: for every streaming step group, the harness argument list begins
with, in order: the module-qualified job-class identifier (the sanitized
job key plus the class name), the comma-joined input URIs of the group's
first step, and the output URI of the group's *last* step. -/
theorem spark_script_args_head_order (ctx : ArgsCtx) (step_num : Nat)
    (last_step_num? : Option Nat) :
    ∃ rest, _spark_script_args ctx step_num last_step_num? =
      PyArg.str (_job_script_module_name ctx.job_key ++ "." ++ ctx.class_name) ::
      PyArg.str (String.intercalate "," (ctx.step_input_uris step_num)) ::
      PyArg.str (ctx.step_output_uri (last_step_num?.getD step_num)) :: rest :=
  ⟨_, rfl⟩

/-- C2: the `--compression-codec` flag appears in the harness argument
list exactly when the step's jobconf both enables map-output compression
and names a codec (provided none of the job-dependent strings collides
with the flag's own spelling); when it appears it is the second-to-last
argument, immediately followed by the codec value. -/
theorem spark_script_args_compression_codec_iff (ctx : ArgsCtx)
    (step_num : Nat) (last? : Option Nat)
    (h₁ : _job_script_module_name ctx.job_key ++ "." ++ ctx.class_name ≠
      "--compression-codec")
    (h₂ : String.intercalate "," (ctx.step_input_uris step_num) ≠
      "--compression-codec")
    (h₃ : ctx.step_output_uri (last?.getD step_num) ≠ "--compression-codec")
    (h₄ : ctx.cmd_line ctx.mr_job_extra_args ≠ "--compression-codec") :
    (PyArg.str "--compression-codec" ∈ _spark_script_args ctx step_num last? ↔
      enablesMapOutputCompression (ctx.jobconf_for_step step_num) ∧
        specifiesCodec (ctx.jobconf_for_step step_num)) ∧
    (enablesMapOutputCompression (ctx.jobconf_for_step step_num) ∧
        specifiesCodec (ctx.jobconf_for_step step_num) →
      ∃ pre, _spark_script_args ctx step_num last? =
        pre ++ [PyArg.str "--compression-codec",
          PyArg.str ((jobconf_from_dict (ctx.jobconf_for_step step_num)
            "mapreduce.map.output.compress.codec").getD "")]) := by
  simp only [_spark_script_args]
  set c := jobconf_from_dict (ctx.jobconf_for_step step_num)
    "mapreduce.map.output.compress" with hc
  set k := jobconf_from_dict (ctx.jobconf_for_step step_num)
    "mapreduce.map.output.compress.codec" with hk
  have hcond : (pyTruthy c && decide (c ≠ some "false") && pyTruthy k) = true ↔
      (enablesMapOutputCompression (ctx.jobconf_for_step step_num) ∧
        specifiesCodec (ctx.jobconf_for_step step_num)) := by
    simp [enablesMapOutputCompression, specifiesCodec, ← hc, ← hk,
      Bool.and_eq_true, decide_eq_true_iff, and_assoc]
  by_cases hcs : enablesMapOutputCompression (ctx.jobconf_for_step step_num) ∧
      specifiesCodec (ctx.jobconf_for_step step_num)
  · rw [if_pos (hcond.mpr hcs)]
    refine ⟨by simp [hcs], fun _ => ⟨_, rfl⟩⟩
  · rw [if_neg (fun hb => hcs (hcond.mp hb))]
    refine ⟨⟨fun hmem => absurd ?_ hcs, fun h => absurd h hcs⟩,
      fun h => absurd h hcs⟩
    exfalso
    simp only [List.append_nil, List.mem_append, List.mem_cons,
      List.not_mem_nil, or_false] at hmem
    rcases hmem with ((h | h | h) | h) | h
    · exact h₁ (PyArg.str.inj h).symm
    · exact h₂ (PyArg.str.inj h).symm
    · exact h₃ (PyArg.str.inj h).symm
    · revert h
      split
      · intro h; simp at h
      · intro h; simp at h
    · revert h
      split
      · intro h
        simp only [List.mem_cons, List.not_mem_nil, or_false] at h
        rcases h with h | h
        · simp at h
        · exact h₄ (PyArg.str.inj h).symm
      · intro h; simp at h

/-- Witness for C2: a jobconf with compression enabled and a codec named
yields the flag; the hypotheses hold for the concrete context. -/
theorem spark_script_args_compression_codec_iff_witness :
    (PyArg.str "--compression-codec" ∈ _spark_script_args exCtxCodec 0 none ↔
      enablesMapOutputCompression (exCtxCodec.jobconf_for_step 0) ∧
        specifiesCodec (exCtxCodec.jobconf_for_step 0)) ∧
    (enablesMapOutputCompression (exCtxCodec.jobconf_for_step 0) ∧
        specifiesCodec (exCtxCodec.jobconf_for_step 0) →
      ∃ pre, _spark_script_args exCtxCodec 0 none =
        pre ++ [PyArg.str "--compression-codec",
          PyArg.str ((jobconf_from_dict (exCtxCodec.jobconf_for_step 0)
            "mapreduce.map.output.compress.codec").getD "")]) :=
  spark_script_args_compression_codec_iff exCtxCodec 0 none
    (by decide) (by decide) (by decide) (by decide)

end SparkRunner

namespace SparkRunner

/-! ### Claim theorems: submission execution -/

/-- Counterexample for C6: at exit code 1 the raised error's reason is
Python's `str(CalledProcessError(...))` message, which is not the string
"command exited with status 1" the claim prescribes. -/
theorem run_step_reason_format_counterexample :
    _run_step_on_spark 1 "spark-submit" 0 0 1 =
      Except.error ⟨"Command 'spark-submit' returned non-zero exit status 1.",
        0, 0, 1⟩ ∧
    "Command 'spark-submit' returned non-zero exit status 1." ≠
      "command exited with status 1" := by
  constructor
  · rfl
  · decide

/-- C6 (amended): a submission succeeds exactly when the subprocess exit
code is 0; a non-zero exit code raises `StepFailedException` carrying the
group's first and last step ordinals, the job's total step count, and the
reason `str(CalledProcessError(...))`, i.e.
`Command '<cmd>' returned non-zero exit status N.`. -/
theorem run_step_exit_code_and_reason (returncode : Nat) (cmd : String)
    (step_num last_step_num num_steps : Nat) :
    (_run_step_on_spark returncode cmd step_num last_step_num num_steps =
        Except.ok () ↔ returncode = 0) ∧
    (returncode ≠ 0 →
      _run_step_on_spark returncode cmd step_num last_step_num num_steps =
        Except.error ⟨"Command '" ++ cmd ++ "' returned non-zero exit status " ++
          toString returncode ++ ".", step_num, last_step_num, num_steps⟩) := by
  unfold _run_step_on_spark
  by_cases h : returncode = 0 <;> simp [h, calledProcessErrorStr]

/-- Witness for C6: exit code 2 on a concrete command raises the expected
exception. -/
theorem run_step_exit_code_and_reason_witness :
    _run_step_on_spark 2 "spark-submit mr_x_1.py" 1 2 4 =
      Except.error ⟨"Command 'spark-submit mr_x_1.py' returned non-zero exit status 2.",
        1, 2, 4⟩ :=
  (run_step_exit_code_and_reason 2 "spark-submit mr_x_1.py" 1 2 4).2 (by decide)

theorem run_go_all_ok (exit_code : Nat → Nat) (cmd : Nat → String) (ns : Nat) :
    ∀ (gs : List StepGroup) (i : Nat),
      (∀ j, j < gs.length → exit_code (i + j) = 0) →
      _run_steps_on_spark_go exit_code cmd ns i gs =
        (List.range' i gs.length, none) := by
  intro gs
  induction gs with
  | nil => intro i _; simp [_run_steps_on_spark_go]
  | cons g gs ih =>
    intro i h
    have h0 : exit_code i = 0 := by simpa using h 0 (by simp)
    have hrec := ih (i + 1) (fun j hj => by
      have hsh := h (j + 1) (by simpa using Nat.succ_lt_succ hj)
      have harith : i + (j + 1) = i + 1 + j := by omega
      rwa [harith] at hsh)
    simp only [_run_steps_on_spark_go, _run_step_on_spark, h0, ne_eq,
      not_true_eq_false, if_neg, if_false, hrec, List.length_cons,
      List.range'_succ]

theorem run_go_first_fail (exit_code : Nat → Nat) (cmd : Nat → String) (ns : Nat) :
    ∀ (gs : List StepGroup) (i k : Nat) (hk : k < gs.length),
      exit_code (i + k) ≠ 0 →
      (∀ j, j < k → exit_code (i + j) = 0) →
      _run_steps_on_spark_go exit_code cmd ns i gs =
        (List.range' i (k + 1),
         some ⟨calledProcessErrorStr (exit_code (i + k)) (cmd (i + k)),
           (gs.get ⟨k, hk⟩).step_num,
           (gs.get ⟨k, hk⟩).step_num + (gs.get ⟨k, hk⟩).steps.length - 1, ns⟩) := by
  intro gs
  induction gs with
  | nil => intro i k hk; exact absurd hk (by simp)
  | cons g gs ih =>
    intro i k hk hfail hprev
    match k with
    | 0 =>
      rw [Nat.add_zero] at hfail
      simp [_run_steps_on_spark_go, _run_step_on_spark, hfail, List.range'_succ]
    | k + 1 =>
      have h0 : exit_code i = 0 := by simpa using hprev 0 (Nat.succ_pos k)
      have harith : i + (k + 1) = i + 1 + k := by omega
      rw [harith] at hfail
      have hrec := ih (i + 1) k (by simpa using Nat.lt_of_succ_lt_succ hk)
        hfail (fun j hj => by
          have hsh := hprev (j + 1) (Nat.succ_lt_succ hj)
          have ha : i + (j + 1) = i + 1 + j := by omega
          rwa [ha] at hsh)
      simp only [_run_steps_on_spark_go, _run_step_on_spark, h0, ne_eq,
        not_true_eq_false, if_neg, if_false, hrec, List.range'_succ]
      simp [harith]

/-- C7: groups run strictly in job order, one submission each. If every
submission succeeds, the started groups are exactly `0, …, len-1` in order
with no failure; if group `k` is the first to exit non-zero, then exactly
groups `0, …, k` are started (each once, in order), the run fails with
group `k`'s step range and the job's step count, and no later group is
ever started. -/
theorem run_steps_sequential_abort_on_failure (exit_code : Nat → Nat)
    (cmd : Nat → String) (ns : Nat) (groups : List StepGroup) :
    ((∀ j, j < groups.length → exit_code j = 0) →
      _run_steps_on_spark exit_code cmd ns groups =
        (List.range groups.length, none)) ∧
    (∀ (k : Nat) (hk : k < groups.length), exit_code k ≠ 0 →
      (∀ j, j < k → exit_code j = 0) →
      _run_steps_on_spark exit_code cmd ns groups =
        (List.range (k + 1),
         some ⟨calledProcessErrorStr (exit_code k) (cmd k),
           (groups.get ⟨k, hk⟩).step_num,
           (groups.get ⟨k, hk⟩).step_num + (groups.get ⟨k, hk⟩).steps.length - 1,
           ns⟩)) := by
  constructor
  · intro h
    rw [List.range_eq_range']
    exact run_go_all_ok exit_code cmd ns groups 0 (fun j hj => by
      simpa using h j hj)
  · intro k hk hfail hprev
    rw [List.range_eq_range']
    have hgo := run_go_first_fail exit_code cmd ns groups 0 k hk
      (by simpa using hfail) (fun j hj => by simpa using hprev j hj)
    simpa using hgo

/-- Witness for C7: in the example 3-group job whose second submission
exits with code 1, only groups 0 and 1 are started and the failure carries
group 1's step range. -/
theorem run_steps_sequential_abort_on_failure_witness :
    _run_steps_on_spark exExit exCmd 3 exGroups =
      (List.range (1 + 1),
       some ⟨calledProcessErrorStr (exExit 1) (exCmd 1),
         (exGroups.get ⟨1, by decide⟩).step_num,
         (exGroups.get ⟨1, by decide⟩).step_num +
           (exGroups.get ⟨1, by decide⟩).steps.length - 1, 3⟩) :=
  (run_steps_sequential_abort_on_failure exExit exCmd 3 exGroups).2 1
    (by decide) (by decide)
    (fun j hj => by
      have hj0 : j = 0 := Nat.lt_one_iff.mp hj
      subst hj0; rfl)

end SparkRunner

namespace SparkRunner

/-! ### Claim theorems: validation and staging -/

theorem check_steps_error_aux (cls : Bool) :
    ∀ (l : List Step) (n i : Nat) (hi : i < l.length),
      (∃ e, _check_step cls (l.get ⟨i, hi⟩) (n + i) = Except.error e) →
      ∃ e, (List.enumFrom n l).foldr
          (fun (p : Nat × Step) acc =>
            match _check_step cls p.2 p.1 with
            | Except.ok () => acc
            | Except.error e => Except.error e)
          (Except.ok ()) = Except.error e := by
  intro l
  induction l with
  | nil => intro n i hi; exact absurd hi (by simp)
  | cons s rest ih =>
    intro n i hi h
    match i with
    | 0 =>
      obtain ⟨e, he⟩ := h
      rw [Nat.add_zero] at he
      simp only [List.get] at he
      refine ⟨e, ?_⟩
      simp only [List.enumFrom, List.foldr, he]
    | i + 1 =>
      have h' : ∃ e, _check_step cls (rest.get ⟨i, Nat.lt_of_succ_lt_succ hi⟩)
          ((n + 1) + i) = Except.error e := by
        obtain ⟨e, he⟩ := h
        refine ⟨e, ?_⟩
        have ha : n + (i + 1) = (n + 1) + i := by omega
        rw [ha] at he
        simpa [List.get] using he
      obtain ⟨e, he⟩ := ih (n + 1) i (Nat.lt_of_succ_lt_succ hi) h'
      simp only [List.enumFrom, List.foldr]
      match hcs : _check_step cls s n with
      | Except.ok () => exact ⟨e, by simpa using he⟩
      | Except.error e' => exact ⟨e', rfl⟩

/-- C8: validation rejects every step that sets the `input_manifest` flag
and every streaming step one of whose mapper/combiner/reducer sub-specs
has a `command` or `pre_filter` key; and validation errors abort the run
at setup, before any submission is started: if any step of the job fails
`_check_step`, the run fails with a validation error and the started-group
list is empty. -/
theorem check_step_rejects_and_eager :
    (∀ (cls : Bool) (step : Step) (n : Nat), step.input_manifest = true →
      _check_step cls step n = Except.error (CheckError.notImplemented
        "spark runner does not support input manifests")) ∧
    (∀ (cls : Bool) (step : Step) (n : Nat) (sub : SubSpec),
      step.type = StepType.streaming →
      (step.mapper = some sub ∨ step.combiner = some sub ∨
        step.reducer = some sub) →
      (sub.has_command || sub.has_pre_filter) = true →
      ∃ e, _check_step cls step n = Except.error e) ∧
    (∀ (cls : Bool) (steps : List Step) (exit_code : Nat → Nat)
      (cmd : Nat → String) (i : Nat) (hi : i < steps.length),
      (∃ e, _check_step cls (steps.get ⟨i, hi⟩) i = Except.error e) →
      (run_job cls steps exit_code cmd).1 = [] ∧
        ∃ e, (run_job cls steps exit_code cmd).2 = Except.error e) := by
  refine ⟨?_, ?_, ?_⟩
  · intro cls step n h
    simp [_check_step, h]
  · intro cls step n sub htype hrole hbad
    by_cases hman : step.input_manifest
    · exact ⟨_, by simp [_check_step, hman]; try rfl⟩
    · by_cases hcls : cls
      · simp only [_check_step, hman, if_false, htype, if_true, hcls,
          not_true_eq_false, Bool.false_eq_true, mrcRoles, List.foldr]
        rcases hrole with hm | hc | hr
        · rw [hm]
          exact ⟨_, by simp [hbad]; try rfl⟩
        · rw [hc]
          cases hmm : step.mapper with
          | none => exact ⟨_, by simp [hbad]; try rfl⟩
          | some sub' =>
            by_cases hb' : (sub'.has_command || sub'.has_pre_filter) = true
            · exact ⟨_, by simp [hb']; try rfl⟩
            · exact ⟨_, by simp [hb', hbad]; try rfl⟩
        · rw [hr]
          cases hmm : step.mapper with
          | none =>
            cases hcc : step.combiner with
            | none => exact ⟨_, by simp [hbad]; try rfl⟩
            | some sub' =>
              by_cases hb' : (sub'.has_command || sub'.has_pre_filter) = true
              · exact ⟨_, by simp [hb']; try rfl⟩
              · exact ⟨_, by simp [hb', hbad]; try rfl⟩
          | some subm =>
            by_cases hbm : (subm.has_command || subm.has_pre_filter) = true
            · exact ⟨_, by simp [hbm]; try rfl⟩
            · cases hcc : step.combiner with
              | none => exact ⟨_, by simp [hbm, hbad]; try rfl⟩
              | some sub' =>
                by_cases hb' : (sub'.has_command || sub'.has_pre_filter) = true
                · exact ⟨_, by simp [hbm, hb']; try rfl⟩
                · exact ⟨_, by simp [hbm, hb', hbad]; try rfl⟩
      · exact ⟨_, by simp [_check_step, hman, htype, hcls]; try rfl⟩
  · intro cls steps exit_code cmd i hi h
    have hcheck : ∃ e, _check_steps cls steps = Except.error e := by
      have haux := check_steps_error_aux cls steps 0 i hi (by simpa using h)
      obtain ⟨e, he⟩ := haux
      exact ⟨e, by
        rw [_check_steps, show steps.enum = List.enumFrom 0 steps from rfl]
        exact he⟩
    obtain ⟨e, he⟩ := hcheck
    rw [run_job, he]
    exact ⟨rfl, e, rfl⟩

/-- Witness for C8: a manifest step is rejected with the manifest error; a
streaming step whose mapper runs a command is rejected; and a job whose
only step is that command step starts no submission. -/
theorem check_step_rejects_and_eager_witness :
    _check_step true manifestStep 0 = Except.error (CheckError.notImplemented
      "spark runner does not support input manifests") ∧
    (∃ e, _check_step true commandStep 0 = Except.error e) ∧
    ((run_job true [commandStep] (fun _ => 0) (fun _ => "")).1 = [] ∧
      ∃ e, (run_job true [commandStep] (fun _ => 0) (fun _ => "")).2 =
        Except.error e) :=
  ⟨check_step_rejects_and_eager.1 true manifestStep 0 rfl,
   check_step_rejects_and_eager.2.1 true commandStep 0 ⟨true, false⟩
     rfl (Or.inl rfl) rfl,
   check_step_rejects_and_eager.2.2 true [commandStep] (fun _ => 0)
     (fun _ => "") 0 (by decide)
     ⟨CheckError.notImplemented
       "step 0's mapper runs a command, but spark runner does not support commands",
      rfl⟩⟩

/-- C9: when the Spark temp dir is a local path (not a URI) no upload
manager is created and `_upload_local_files` issues no storage operation
at all; an upload manager exists only for a URI temp dir, and staging then
issues one `mkdir` of the staging prefix followed by one `put` per
recorded file, in order. -/
theorem upload_local_files_noop_when_local :
    (∀ tmp : String, is_uri tmp = false →
      mk_upload_mgr tmp = none ∧ _upload_local_files (mk_upload_mgr tmp) = []) ∧
    (∀ (tmp : String) (mgr : UploadMgr), mk_upload_mgr tmp = some mgr →
      is_uri tmp = true ∧
        _upload_local_files (some mgr) =
          StorageOp.mkdir mgr.stagingDir ::
            mgr.path_to_uri.map (fun su => StorageOp.put su.1 su.2)) := by
  constructor
  · intro tmp h
    simp [mk_upload_mgr, h, _upload_local_files]
  · intro tmp mgr h
    refine ⟨?_, rfl⟩
    cases hu : is_uri tmp with
    | true => rfl
    | false => rw [mk_upload_mgr, hu] at h; simp at h

/-- Witness for C9: a local temp dir yields no staging; an HDFS temp dir
yields a staging manager rooted under it. -/
theorem upload_local_files_noop_when_local_witness :
    (mk_upload_mgr "/tmp/mr_x.1-spark" = none ∧
      _upload_local_files (mk_upload_mgr "/tmp/mr_x.1-spark") = []) ∧
    (is_uri "hdfs://namenode/tmp/mrjob/mr_x.1" = true ∧
      _upload_local_files
        (some ⟨"hdfs://namenode/tmp/mrjob/mr_x.1/files/", []⟩) =
        StorageOp.mkdir
          (UploadMgr.stagingDir ⟨"hdfs://namenode/tmp/mrjob/mr_x.1/files/", []⟩) ::
          (UploadMgr.path_to_uri
              ⟨"hdfs://namenode/tmp/mrjob/mr_x.1/files/", []⟩).map
            (fun su => StorageOp.put su.1 su.2)) :=
  ⟨upload_local_files_noop_when_local.1 "/tmp/mr_x.1-spark" (by decide),
   upload_local_files_noop_when_local.2 "hdfs://namenode/tmp/mrjob/mr_x.1"
     ⟨"hdfs://namenode/tmp/mrjob/mr_x.1/files/", []⟩ (by decide)⟩

end SparkRunner
